import Mathlib

/-!
Verification development for the FED-Chatbot context-assembly and caching
pipeline (src/services/teamAPI.js, teamDataManager.js, eventsDataManager,
geminiAPI.js, chatbotAPI.js).

The JavaScript services are shallowly embedded as pure Lean functions:
* network calls become explicit `Except`-valued upstream oracles passed as
  arguments;
* module-level mutable cache state becomes explicit state records threaded
  through each operation, together with a count of upstream calls issued;
* `Date.now()` becomes an explicit `now : Int` argument (JS numbers holding
  millisecond timestamps);
* JS truthiness of the relevant values is modelled field by field (an array
  is always truthy, `null`/`undefined` are falsy, a number is falsy iff 0,
  a string is falsy iff empty).
-/

namespace FedChatbot

/-! ## JavaScript string primitives

`String.trim`/`String.toLowerCase` are modelled on the character list of the
string: `query.trim().length === 0` holds exactly when every character is
whitespace, and `toLowerCase` maps `Char.toLower` over the characters.
`String.prototype.includes` is substring containment. -/

/-- Model of `s.trim().length === 0` (also true for the empty string,
matching the `!s ||` guards that accompany it in the source). -/
def isBlankQuery (s : String) : Bool :=
  s.data.all (fun c => c.isWhitespace)

/-- Model of `s.toLowerCase()`. -/
def jsToLower (s : String) : String :=
  String.mk (s.data.map Char.toLower)

/-- Model of `hay.includes(needle)`: some suffix of `hay` starts with
`needle`. -/
def jsIncludes (hay needle : String) : Bool :=
  (List.range (hay.data.length + 1)).any
    (fun i => needle.data.isPrefixOf (hay.data.drop i))

/-- Insert `x` into `l` before the first element `y` with `le x y`.
Helper for `sortBy`. -/
def insertSorted {A : Type} (le : A → A → Bool) (x : A) : List A → List A
  | [] => [x]
  | y :: ys => if le x y then x :: y :: ys else y :: insertSorted le x ys

/-- `Array.prototype.sort(comparator)` establishes some ordering of the
array that is sorted with respect to the comparator; it is modelled as an
insertion sort on the comparator-derived `le` (comparator value ≤ 0),
realising the same contract by structural recursion. -/
def sortBy {A : Type} (le : A → A → Bool) : List A → List A
  | [] => []
  | x :: xs => insertSorted le x (sortBy le xs)

/-- Strict lexicographic order on character lists, used to model string
comparison. -/
def charsLt : List Char → List Char → Bool
  | [], [] => false
  | [], _ :: _ => true
  | _ :: _, [] => false
  | a :: as, b :: bs =>
    if a < b then true
    else if b < a then false
    else charsLt as bs

/-- Model of `a.localeCompare(b)` (an external JS library routine, not code
of this repository): default-locale collation compares case-insensitively
first (primary strength), falling back to the raw characters for strings
equal up to case. Returns a negative, zero or positive number exactly as
`localeCompare` does. -/
def localeCompare (a b : String) : Int :=
  if charsLt (jsToLower a).data (jsToLower b).data then -1
  else if charsLt (jsToLower b).data (jsToLower a).data then 1
  else if charsLt a.data b.data then -1
  else if charsLt b.data a.data then 1
  else 0

/-! ## Fixed user-facing strings (src/config/constants.js) -/

def NETWORK_ERROR : String :=
  "Sorry, I'm having trouble connecting to the server. Please try again later."

def API_CONFIG_ERROR : String :=
  "Error: An API configuration issue occurred. Please contact support."

def EMPTY_RESPONSE : String :=
  "Sorry, I received an empty response. Please try a different query."

def INVALID_INPUT : String :=
  "Please enter a valid message."

/-- The timeout message returned inline by `generateAIResponse`. -/
def TIMEOUT_MESSAGE : String :=
  "Request timed out. Please try again with a shorter query."

/-- The message of the error thrown by `validateAndExtractResponse`. -/
def EMPTY_AI_ERROR : String :=
  "Empty or invalid response from AI model"

/-! ## Team data (src/services/teamAPI.js, teamDataManager.js) -/

/-- A team member record as delivered by `GET /api/user/fetchTeam`.
`name` is `Option String` because the backend serves records with
`name: null`. -/
structure Member where
  id : String
  name : Option String
  access : String
  year : Int
deriving DecidableEq

/-- The JSON body of a team response: `{success, data}` together with the
HTTP status of the axios response. -/
structure TeamResp where
  status : Nat
  success : Bool
  data : List Member
deriving DecidableEq

/-- An error thrown by axios (network failure, timeout, non-2xx rejection). -/
structure AxiosErr where
  message : String
deriving DecidableEq

/-- `a.name` viewed as the JS string handed to `localeCompare` (after the
null-name filter the name is always present, so the default is never
exercised by `fetchTeamMembers`). -/
def jsName (m : Member) : String := m.name.getD ""

/-- The sort comparator of `teamAPI.fetchTeamMembers`:
`if (b.year !== a.year) return b.year - a.year; return
a.name.localeCompare(b.name)`. -/
def memberCmp (a b : Member) : Int :=
  if b.year ≠ a.year then b.year - a.year
  else localeCompare (jsName a) (jsName b)

/-- `a` may precede `b` under the comparator (comparator value ≤ 0), the
ordering `Array.prototype.sort` establishes. -/
def memberLE (a b : Member) : Bool :=
  memberCmp a b ≤ 0

/-- `teamAPI.fetchTeamMembers`, with the single axios call abstracted as an
`Except`-valued argument. On a 200/`success` response it filters out records
with `name === null` and sorts by year descending then name; on any other
response shape, and on any thrown error, it returns `[]` — the whole body is
wrapped in try/catch, so this function never raises. -/
def fetchTeamMembers (upstream : Except AxiosErr TeamResp) : List Member :=
  match upstream with
  | .error _ => []
  | .ok resp =>
    if resp.status == 200 && resp.success then
      sortBy memberLE (resp.data.filter (fun m => m.name.isSome))
    else []

/-- The mutable fields of the `TeamDataManager` singleton. -/
structure TeamState where
  cachedData : Option (List Member)
  lastFetch : Option Int
  cacheTimeout : Int
  isFetching : Bool
deriving DecidableEq

/-- The freshness test of `TeamDataManager.getMembers`:
`this.cachedData && this.lastFetch && (now - this.lastFetch < this.cacheTimeout)`.
An array is always truthy; `lastFetch` is truthy iff it is a non-zero
number. -/
def teamCacheFresh (s : TeamState) (now : Int) : Bool :=
  s.cachedData.isSome &&
    (match s.lastFetch with
     | some t => t != 0 && now - t < s.cacheTimeout
     | none => false)

/-- Result of one `getMembers()` call. -/
inductive TeamOutcome
  | hit (v : List Member)
  | waiting
  | fetched (v : List Member)
deriving DecidableEq

/-- One sequential `TeamDataManager.getMembers()` call: returns the outcome,
the successor state, and the number of upstream team fetches issued.
The `waiting` outcome is the `isFetching` branch (sleep 100 ms and recurse);
its concurrent behaviour is analysed by the single-flight transition system
below. The `catch` branch of the source (`return this.cachedData || []`)
is unreachable because `fetchTeamMembers` is total — it absorbs every
upstream failure and returns `[]`, so the success path always runs and
stores `freshData` with `this.lastFetch = now`. -/
def getMembers (s : TeamState) (now : Int)
    (upstream : Except AxiosErr TeamResp) :
    TeamOutcome × TeamState × Nat :=
  if teamCacheFresh s now then
    (.hit (s.cachedData.getD []), s, 0)
  else if s.isFetching then
    (.waiting, s, 0)
  else
    let freshData := fetchTeamMembers upstream
    (.fetched freshData,
     { s with cachedData := some freshData, lastFetch := some now,
              isFetching := false }, 1)

/-! ## Events data (eventsDataManager, concatenated into
src/services/geminiAPI.js) -/

/-- The `info` sub-object of an event record, with the fields the services
read: `eventTitle`, `eventdescription`, `eventDate` (modelled as the
millisecond timestamp `new Date(...).getTime()` yields) and `isEventPast`. -/
structure EventInfo where
  eventTitle : String
  eventdescription : String
  eventDate : Int
  isEventPast : Bool
deriving DecidableEq

/-- A full event record from `GET /api/form/getAllForms`: `info` is optional
(`event?.info` guards appear throughout), `sections` are opaque blocks. -/
structure EventRecord where
  id : String
  info : Option EventInfo
  sections : List String
deriving DecidableEq

/-- `e.info` with a default that is never read behind an `isSome` guard. -/
def getInfoD (e : EventRecord) : EventInfo :=
  e.info.getD ⟨"", "", 0, false⟩

/-- The processed cache value: upcoming events keep their full records,
past events are projected to bare `info` objects. -/
structure EventsData where
  upcomingEvents : List EventRecord
  pastEvents : List EventInfo
deriving DecidableEq

/-- Date-descending comparator of `processEventsData`:
`dateB.getTime() - dateA.getTime()` ≤ 0 keeps `a` before `b`. -/
def eventDateDescLE (a b : EventRecord) : Bool :=
  (getInfoD b).eventDate ≤ (getInfoD a).eventDate

/-- `processEventsData(rawEvents)`: `none` models a non-array argument
(the `!Array.isArray` guard). Records with `info` present are partitioned by
`info.isEventPast`; upcoming keeps full records in upstream order, past is
sorted by `eventDate` descending, truncated to 5, and projected to `info`. -/
def processEventsData (raw : Option (List EventRecord)) : EventsData :=
  match raw with
  | none => ⟨[], []⟩
  | some rawEvents =>
    let upcomingEvents := rawEvents.filter
      (fun e => e.info.isSome && !(getInfoD e).isEventPast)
    let pastEvents :=
      ((sortBy eventDateDescLE (rawEvents.filter
          (fun e => e.info.isSome && (getInfoD e).isEventPast))).take 5).map
        getInfoD
    ⟨upcomingEvents, pastEvents⟩

/-- The module-level mutable state of the events cache:
`cachedEvents` and `lastEventsFetchTime` (initially `{[], []}` and `0`). -/
structure EventsState where
  cachedEvents : EventsData
  lastEventsFetchTime : Int
deriving DecidableEq

/-- `isCacheFresh()`: the cache age must be below the TTL **and** the cached
`upcomingEvents` array must be non-empty. -/
def isCacheFresh (s : EventsState) (now ttl : Int) : Bool :=
  now - s.lastEventsFetchTime < ttl &&
    s.cachedEvents.upcomingEvents.length > 0

/-- The JSON body of an events response: `{success, events}`; `events` is
`none` when the field is missing or not an array
(`Array.isArray(response.data.events)`). -/
structure EventsResp where
  success : Bool
  events : Option (List EventRecord)
deriving DecidableEq

/-- The `catch` branch of `fetchAndCacheEvents`: return the stale cache if
either subset is non-empty, otherwise empty data. -/
def eventsFallback (s : EventsState) : EventsData :=
  if s.cachedEvents.upcomingEvents.length > 0 ||
      s.cachedEvents.pastEvents.length > 0 then
    s.cachedEvents
  else ⟨[], []⟩

/-- `fetchAndCacheEvents()`: the `fetchWithBackoff` call is abstracted as an
`Except`-valued argument (`.error` = the helper raised). Returns the events
value handed to the caller, the successor cache state, and the number of
upstream fetch attempts issued (0 on a cache hit, 1 otherwise). A response
without `success`/array `events` throws `Invalid response format...`, which
the same `catch` absorbs via `eventsFallback` (in both fallback cases the
cache state is left unchanged). -/
def fetchAndCacheEvents (s : EventsState) (now ttl : Int)
    (upstream : Except Unit EventsResp) :
    EventsData × EventsState × Nat :=
  if isCacheFresh s now ttl then
    (s.cachedEvents, s, 0)
  else
    match upstream with
    | .ok r =>
      match r.events with
      | some evs =>
        if r.success then
          let processedEvents := processEventsData (some evs)
          (processedEvents, ⟨processedEvents, now⟩, 1)
        else
          (eventsFallback s, s, 1)
      | none => (eventsFallback s, s, 1)
    | .error _ => (eventsFallback s, s, 1)

/-- An element of the `[...upcomingEvents, ...pastEvents]` concatenation
built by `searchEvents`/`getEventById`: upcoming entries are full records,
past entries are the bare `info` objects the cache stores for them. -/
inductive CachedEvent
  | full (r : EventRecord)
  | bare (i : EventInfo)
deriving DecidableEq

/-- JS property access `event.info` on a concatenation element: a bare
`info` object has no `info` field, so it reads as `undefined`. -/
def jsInfo : CachedEvent → Option EventInfo
  | .full r => r.info
  | .bare _ => none

/-- JS property access `event.id`: absent (`undefined`) on bare `info`
objects. -/
def jsId : CachedEvent → Option String
  | .full r => some r.id
  | .bare _ => none

/-- The `[...events.upcomingEvents, ...events.pastEvents]` concatenation. -/
def allEventsOf (ev : EventsData) : List CachedEvent :=
  ev.upcomingEvents.map .full ++ ev.pastEvents.map .bare

/-- `searchEvents(query)` applied to an already-fetched events value:
invalid queries return `[]`; otherwise filter the concatenation by
case-insensitive substring match on `event.info?.eventTitle` and
`event.info?.eventdescription` (both read as `''` when `info` is absent). -/
def searchEvents (query : String) (ev : EventsData) : List CachedEvent :=
  if isBlankQuery query then []
  else
    let lowerQuery := jsToLower query
    (allEventsOf ev).filter (fun e =>
      let title := match jsInfo e with
        | some i => jsToLower i.eventTitle
        | none => ""
      let description := match jsInfo e with
        | some i => jsToLower i.eventdescription
        | none => ""
      jsIncludes title lowerQuery || jsIncludes description lowerQuery)

/-- `getEventById(eventId)` applied to an already-fetched events value:
a falsy id returns `null`; otherwise the first element of the concatenation
whose `id` strictly equals `eventId` (`undefined === eventId` is false for
the bare past entries). -/
def getEventById (eventId : String) (ev : EventsData) : Option CachedEvent :=
  if eventId == "" then none
  else
    (allEventsOf ev).find? (fun e =>
      match jsId e with
      | some i => i == eventId
      | none => false)

/-! ## Backoff executors (src/services/geminiAPI.js) -/

/-- The loop body of `retryWithBackoff`, structured on the number of
attempts still allowed. `fn attempt` is the outcome of the `attempt`-th call
of the wrapped operation (attempts are numbered from 1, as in the source).
Returns the result, the number of times `fn` was invoked, and the list of
back-off delays slept. The error payload is `Option E`: the final
`throw lastError` after the loop — reachable only when `maxRetries = 0` —
throws the still-`undefined` `lastError`, modelled as `none`; the in-loop
`throw error` on the last attempt throws the caught error `some e`. -/
def retryAux {E A : Type} (fn : Nat → Except E A) :
    Nat → Nat → Nat → Except (Option E) A × Nat × List Nat
  | 0, _, _ => (.error none, 0, [])
  | fuel + 1, attempt, delay =>
    match fn attempt with
    | .ok a => (.ok a, 1, [])
    | .error e =>
      match fuel with
      | 0 => (.error (some e), 1, [])
      | _ + 1 =>
        let rest := retryAux fn fuel (attempt + 1) (delay * 2)
        (rest.1, rest.2.1 + 1, delay :: rest.2.2)

/-- `retryWithBackoff(fn, maxRetries, initialDelay)`. -/
def retryWithBackoff {E A : Type} (fn : Nat → Except E A)
    (maxRetries initialDelay : Nat) : Except (Option E) A × Nat × List Nat :=
  retryAux fn maxRetries 1 initialDelay

/-- An HTTP response as `fetchWithBackoff` sees it (only the status is
read). -/
structure HttpResp where
  status : Nat
deriving DecidableEq

/-- How a `fetchWithBackoff` call terminates: a returned response, the
wrapped `Failed to fetch events after N attempts: <lastError.message>`
error, or the TypeError raised by reading `.message` from an undefined
`lastError`. -/
inductive FetchResult
  | resp (r : HttpResp)
  | wrapped (message : String)
  | typeError
deriving DecidableEq

/-- The loop of `fetchWithBackoff`, on the number of attempts left.
`responses attempt` is the outcome of the `attempt`-th `axios.get`.
A resolved response with status 200 is returned; a resolved response with
any other status falls through the loop body without recording an error and
without sleeping; a rejection records `lastError` (and sleeps, doubling the
delay — delays are not tracked here). After the loop the wrapped error is
built from `lastError.message`, a TypeError when `lastError` is still
undefined. -/
def fwbAux (responses : Nat → Except AxiosErr HttpResp) :
    Nat → Nat → Nat → Option AxiosErr → FetchResult
  | 0, _, _, lastError =>
    match lastError with
    | some e => .wrapped e.message
    | none => .typeError
  | fuel + 1, attempt, delay, lastError =>
    match responses attempt with
    | .ok r =>
      if r.status == 200 then .resp r
      else fwbAux responses fuel (attempt + 1) delay lastError
    | .error e => fwbAux responses fuel (attempt + 1) (delay * 2) (some e)

/-- `fetchWithBackoff(url, maxRetries)` with the per-attempt axios outcomes
abstracted as `responses`. -/
def fetchWithBackoff (responses : Nat → Except AxiosErr HttpResp)
    (maxRetries : Nat) : FetchResult :=
  fwbAux responses maxRetries 1 1000 none

/-! ## Generation client (src/services/geminiAPI.js) -/

/-- An error caught by `generateAIResponse`'s catch block, with the three
fields it inspects: `error.response?.status` (present only on axios HTTP
rejections), `error.message`, and `error.code` (e.g. `'ECONNABORTED'`). -/
structure GenError where
  respStatus : Option Nat
  message : String
  code : Option String
deriving DecidableEq

/-- A resolved generation response: its HTTP status and
`data?.candidates?.[0]?.content?.parts?.[0]?.text` (`none` when any link of
that chain is missing or not a string). -/
structure GenResponse where
  status : Nat
  text : Option String
deriving DecidableEq

/-- `validateAndExtractResponse(response)`: non-200 statuses throw
`HTTP <status>: ...`; a missing, empty or whitespace-only text payload
throws `Empty or invalid response from AI model`; otherwise the text is
returned. Thrown `Error` objects have no `response` or `code` field. -/
def validateAndExtractResponse (r : GenResponse) : Except GenError String :=
  if r.status ≠ 200 then
    .error ⟨none, "HTTP " ++ toString r.status, none⟩
  else
    match r.text with
    | some t =>
      if isBlankQuery t then .error ⟨none, EMPTY_AI_ERROR, none⟩
      else .ok t
    | none => .error ⟨none, EMPTY_AI_ERROR, none⟩

/-- The error mapping of `generateAIResponse`'s catch block. -/
def mapGenError (e : GenError) : String :=
  if e.respStatus == some 400 || e.respStatus == some 403 then
    API_CONFIG_ERROR
  else if e.message == EMPTY_AI_ERROR then
    EMPTY_RESPONSE
  else if e.code == some "ECONNABORTED" then
    TIMEOUT_MESSAGE
  else
    NETWORK_ERROR

/-- `generateAIResponse(query, teamMembers, events)` with the awaited
`retryWithBackoff(axios.post...)` outcome abstracted as `upstream`.
The input-validation `throw` sits **outside** the try/catch, so an empty or
whitespace-only query raises (`.error`) out of the function; every other
path returns a string (`.ok`): the extracted text on success, one of the
four fixed messages on any caught failure. Prompt/context assembly does not
affect the returned value and is elided. -/
def generateAIResponse (query : String)
    (upstream : Except GenError GenResponse) : Except String String :=
  if isBlankQuery query then
    .error "Query must be a non-empty string"
  else
    .ok (match upstream with
      | .error e => mapGenError e
      | .ok r =>
        match validateAndExtractResponse r with
        | .ok t => t
        | .error e => mapGenError e)

/-! ## Orchestrator (chatbotAPI, concatenated into
src/services/geminiAPI.js) -/

/-- A JS value passed as the `message` argument: a string or any non-string
value (`typeof message !== 'string'`). -/
inductive JSInput
  | str (s : String)
  | nonString
deriving DecidableEq

/-- The validation guard of `chatbotAPI.sendMessage`:
`!message || typeof message !== 'string' || message.trim().length === 0`. -/
def jsInvalidMessage : JSInput → Bool
  | .str s => isBlankQuery s
  | .nonString => true

/-- The observable outcome of one `sendMessage` call: the `{success,
response}` envelope plus the number of team fetches, events fetches and
generation calls it invoked. -/
structure SendOutcome where
  success : Bool
  response : String
  teamCalls : Nat
  eventsCalls : Nat
  genCalls : Nat
deriving DecidableEq

/-- `chatbotAPI.sendMessage(message)`: invalid input returns the
`INVALID_INPUT` envelope before any fetch or generation call; otherwise the
team and events fetches run (their failures are absorbed into safe defaults
by the attached `.catch` handlers, so the supplied values stand for the
already-resolved results) and `generateAIResponse` is invoked once; a
raised generation error is caught and converted to the `NETWORK_ERROR`
failure envelope. Metadata fields are elided. -/
def sendMessage (message : JSInput)
    (gen : Except GenError GenResponse) : SendOutcome :=
  match message with
  | .nonString => ⟨false, INVALID_INPUT, 0, 0, 0⟩
  | .str s =>
    if isBlankQuery s then ⟨false, INVALID_INPUT, 0, 0, 0⟩
    else
      match generateAIResponse s gen with
      | .ok t => ⟨true, t, 1, 1, 1⟩
      | .error _ => ⟨false, NETWORK_ERROR, 1, 1, 1⟩

/-! ## Single-flight transition system (TeamDataManager.getMembers under
concurrency)

JavaScript runs callers on one event loop: each caller executes atomically
from function entry to its first `await`. For a `getMembers()` caller the
atomic entry segment is: freshness check — `isFetching` check — (on the
fetch path) `this.isFetching = true` and issuing the upstream call. The
resolution of the awaited fetch (store `cachedData`/`lastFetch`, clear
`isFetching` in `finally`, return) is a second atomic segment. A caller that
saw `isFetching` sleeps and re-runs the entry segment later. Callers are
symmetric, so the system state keeps one counter per caller phase:
`idle` (about to run the entry segment, including sleepers), `inflight`
(awaiting its own upstream call), `done` (returned). `cacheSet` abstracts
`teamCacheFresh`: the scenario stays inside one TTL window starting with no
fresh entry, so the cache is fresh exactly from the step that stores it
(`fetchTeamMembers` is total, so even a failed upstream fetch resolves and
stores a value — see the C2 theorems). `fetched` counts upstream calls. -/

structure SFState where
  idle : Nat
  inflight : Nat
  done : Nat
  fetching : Bool
  cacheSet : Bool
  fetched : Nat
deriving DecidableEq

/-- One atomic step of the system. -/
inductive SFStep : SFState → SFState → Prop
  | hit (s : SFState) (h1 : 1 ≤ s.idle) (h2 : s.cacheSet = true) :
      SFStep s ⟨s.idle - 1, s.inflight, s.done + 1, s.fetching, s.cacheSet,
        s.fetched⟩
  | beginFetch (s : SFState) (h1 : 1 ≤ s.idle) (h2 : s.cacheSet = false)
      (h3 : s.fetching = false) :
      SFStep s ⟨s.idle - 1, s.inflight + 1, s.done, true, s.cacheSet,
        s.fetched + 1⟩
  | wait (s : SFState) (h1 : 1 ≤ s.idle) (h2 : s.cacheSet = false)
      (h3 : s.fetching = true) :
      SFStep s s
  | resolve (s : SFState) (h1 : 1 ≤ s.inflight) :
      SFStep s ⟨s.idle, s.inflight - 1, s.done + 1, false, true, s.fetched⟩

/-- All states reachable by interleaving steps. -/
def SFReach : SFState → SFState → Prop :=
  Relation.ReflTransGen SFStep

/-- The initial state of the scenario: `n` concurrent callers, no fresh
cache entry, no fetch in flight. -/
def sfInit (n : Nat) : SFState := ⟨n, 0, 0, false, false, 0⟩

/-- The inductive invariant of the single-flight guard. -/
def sfInv (s : SFState) : Prop :=
  s.fetched ≤ 1 ∧
  (s.fetched = 0 →
    s.fetching = false ∧ s.cacheSet = false ∧ s.inflight = 0 ∧ s.done = 0) ∧
  (s.cacheSet = true → s.fetching = false ∧ s.fetched = 1) ∧
  (s.inflight = if s.fetching then 1 else 0) ∧
  (s.fetched = 1 → s.fetching = true ∨ s.cacheSet = true)

/-- The ordering the spec states for the team list: year descending, ties
broken by case-insensitive (lowercased) name ascending. -/
def yearNameOrder (a b : Member) : Prop :=
  b.year < a.year ∨
    (b.year = a.year ∧
      charsLt (jsToLower (jsName b)).data (jsToLower (jsName a)).data = false)

/-- The concrete retry scenario of the spec: fails on attempts 1 and 2,
succeeds with 42 on attempt 3. -/
def retryScenario : Nat → Except Nat Nat :=
  fun k => if k < 3 then .error k else .ok 42

/-! ## Concrete scenario data used by counterexamples and witnesses -/

/-- A concrete cached team member. -/
def janeMember : Member := ⟨"1", some "Jane Doe", "PRESIDENT", 2025⟩

/-- A team-cache state holding `[janeMember]` stored at t = 1000 ms with the
default 120000 ms TTL and no fetch in flight. -/
def cachedTeamState : TeamState := ⟨some [janeMember], some 1000, 120000, false⟩

/-- A concrete upcoming event record. -/
def upcomingRecord : EventRecord := ⟨"u1", some ⟨"Launch", "", 5000, false⟩, []⟩

/-- An events-cache state with a non-empty upcoming subset stored at
t = 1000 ms. -/
def freshEventsState : EventsState := ⟨⟨[upcomingRecord], []⟩, 1000⟩

/-- A concrete past-only event record. -/
def pastOnlyRecord : EventRecord :=
  ⟨"p1", some ⟨"Hack Night", "", 1000, true⟩, []⟩

/-- An upstream events response whose records are all past. -/
def eventsResponseAllPast : Except Unit EventsResp :=
  .ok ⟨true, some [pastOnlyRecord]⟩

/-- The cache state after a first `fetchAndCacheEvents` read at t = 1000 ms
against the all-past response (starting from the initial empty state). -/
def eventsStateAfterFirstRead : EventsState :=
  (fetchAndCacheEvents ⟨⟨[], []⟩, 0⟩ 1000 120000 eventsResponseAllPast).2.1

/-! # Theorems -/

/-! ## Single-flight invariant proofs (claim C3) -/

theorem sfInv_init (n : Nat) : sfInv (sfInit n) := by
  simp [sfInv, sfInit]

theorem sfInv_step {s s' : SFState} (hstep : SFStep s s') (hI : sfInv s) :
    sfInv s' := by
  obtain ⟨hf1, hf0, hcs, hinf, hfe⟩ := hI
  cases hstep with
  | hit h1 h2 =>
    obtain ⟨hfF, hfe1⟩ := hcs h2
    refine ⟨hf1, ?_, ?_, hinf, ?_⟩
    · intro h0
      exact absurd (show s.fetched = 0 from h0) (by omega)
    · intro _
      exact ⟨hfF, hfe1⟩
    · intro _
      exact Or.inr h2
  | beginFetch h1 h2 h3 =>
    have hne1 : s.fetched ≠ 1 := by
      intro h
      rcases hfe h with hc | hc
      · rw [h3] at hc; exact absurd hc (by simp)
      · rw [h2] at hc; exact absurd hc (by simp)
    have hz : s.fetched = 0 := by omega
    have hi0 : s.inflight = 0 := by rw [hinf, h3]; rfl
    refine ⟨?_, ?_, ?_, ?_, ?_⟩
    · show s.fetched + 1 ≤ 1
      omega
    · intro h0
      exact absurd (show s.fetched + 1 = 0 from h0) (by omega)
    · intro h
      exact absurd (show s.cacheSet = true from h) (by simp [h2])
    · show s.inflight + 1 = if true = true then 1 else 0
      simp [hi0]
    · intro _
      exact Or.inl rfl
  | wait h1 h2 h3 =>
    exact ⟨hf1, hf0, hcs, hinf, hfe⟩
  | resolve h1 =>
    have hft : s.fetching = true := by
      cases hsf : s.fetching
      · rw [hinf, hsf] at h1; exact absurd h1 (by simp)
      · rfl
    have hne0 : s.fetched ≠ 0 := by
      intro h
      obtain ⟨hc, _, _, _⟩ := hf0 h
      rw [hft] at hc; exact absurd hc (by simp)
    have hfe1 : s.fetched = 1 := by omega
    have hi1 : s.inflight = 1 := by rw [hinf, hft]; rfl
    refine ⟨hf1, ?_, ?_, ?_, ?_⟩
    · intro h0
      exact absurd (show s.fetched = 0 from h0) (by omega)
    · intro _
      exact ⟨rfl, hfe1⟩
    · show s.inflight - 1 = if false = true then 1 else 0
      simp [hi1]
    · intro _
      exact Or.inr rfl

theorem sfReach_inv {n : Nat} {s : SFState} (h : SFReach (sfInit n) s) :
    sfInv s := by
  induction h with
  | refl => exact sfInv_init n
  | tail _ hstep ih => exact sfInv_step hstep ih

theorem sfReach_count {n : Nat} {s : SFState} (h : SFReach (sfInit n) s) :
    s.idle + s.inflight + s.done = n := by
  induction h with
  | refl => simp [sfInit]
  | tail hr hstep ih =>
    cases hstep with
    | hit h1 h2 => simp only at ih ⊢; omega
    | beginFetch h1 h2 h3 => simp only at ih ⊢; omega
    | wait h1 h2 h3 => exact ih
    | resolve h1 => simp only at ih ⊢; omega

/-- C3: starting from no fresh cache entry and no fetch in flight, any
interleaving of `n ≥ 1` concurrent `getMembers()` callers that runs until
every caller has returned (no caller still idle or awaiting) performs
exactly one upstream team fetch in total: later callers wait on the
`isFetching` guard and are served from the freshly stored cache entry. -/
theorem single_flight_unique_fetch (n : Nat) (s : SFState) (hn : 1 ≤ n)
    (hreach : SFReach (sfInit n) s) (hidle : s.idle = 0)
    (hinflight : s.inflight = 0) : s.fetched = 1 := by
  have hinv := sfReach_inv hreach
  have hcount := sfReach_count hreach
  obtain ⟨ha, hb, _, _, _⟩ := hinv
  rcases Nat.eq_zero_or_pos s.fetched with h | h
  · obtain ⟨_, _, _, hd⟩ := hb h
    omega
  · omega

/-- Witness for C3: a concrete two-caller interleaving — caller one begins
the fetch, caller two hits the guard and waits, the fetch resolves, caller
two is served from cache — reaches the all-done state, and the theorem
yields a fetch count of one there. -/
theorem single_flight_unique_fetch_witness :
    SFReach (sfInit 2) ⟨0, 0, 2, false, true, 1⟩ ∧
      SFState.fetched ⟨0, 0, 2, false, true, 1⟩ = 1 := by
  have h1 : SFStep (sfInit 2) ⟨1, 1, 0, true, false, 1⟩ := by
    have := SFStep.beginFetch (sfInit 2) (by simp [sfInit]) rfl rfl
    simpa [sfInit] using this
  have h2 : SFStep (⟨1, 1, 0, true, false, 1⟩ : SFState)
      ⟨1, 1, 0, true, false, 1⟩ :=
    SFStep.wait _ (by simp) rfl rfl
  have h3 : SFStep (⟨1, 1, 0, true, false, 1⟩ : SFState)
      ⟨1, 0, 1, false, true, 1⟩ := by
    have := SFStep.resolve (⟨1, 1, 0, true, false, 1⟩ : SFState) (by simp)
    simpa using this
  have h4 : SFStep (⟨1, 0, 1, false, true, 1⟩ : SFState)
      ⟨0, 0, 2, false, true, 1⟩ := by
    have := SFStep.hit (⟨1, 0, 1, false, true, 1⟩ : SFState) (by simp) rfl
    simpa using this
  have hreach : SFReach (sfInit 2) ⟨0, 0, 2, false, true, 1⟩ :=
    Relation.ReflTransGen.tail
      (Relation.ReflTransGen.tail
        (Relation.ReflTransGen.tail (Relation.ReflTransGen.single h1) h2) h3)
      h4
  exact ⟨hreach,
    single_flight_unique_fetch 2 _ (by omega) hreach rfl rfl⟩

/-! ## Backoff executor lemmas (claim C6) -/

theorem retryAux_succ_ok {E A : Type} {fn : Nat → Except E A} {a : Nat}
    {v : A} (h : fn a = .ok v) (f d : Nat) :
    retryAux fn (f + 1) a d = (.ok v, 1, []) := by
  simp [retryAux, h]

theorem retryAux_one_err {E A : Type} {fn : Nat → Except E A} {a : Nat}
    {e : E} (h : fn a = .error e) (d : Nat) :
    retryAux fn 1 a d = (.error (some e), 1, []) := by
  simp [retryAux, h]

theorem retryAux_succ2_err {E A : Type} {fn : Nat → Except E A} {a : Nat}
    {e : E} (h : fn a = .error e) (f d : Nat) :
    retryAux fn (f + 2) a d =
      ((retryAux fn (f + 1) (a + 1) (d * 2)).1,
       (retryAux fn (f + 1) (a + 1) (d * 2)).2.1 + 1,
       d :: (retryAux fn (f + 1) (a + 1) (d * 2)).2.2) := by
  simp [retryAux, h]

theorem retryAux_count_le {E A : Type} (fn : Nat → Except E A) :
    ∀ fuel a d, (retryAux fn fuel a d).2.1 ≤ fuel := by
  intro fuel
  induction fuel with
  | zero => intro a d; simp [retryAux]
  | succ f ih =>
    intro a d
    cases hfa : fn a with
    | ok v => simp [retryAux_succ_ok hfa]
    | error e =>
      cases f with
      | zero => simp [retryAux_one_err hfa]
      | succ f' =>
        rw [retryAux_succ2_err hfa]
        have := ih (a + 1) (d * 2)
        simpa using by omega

theorem retryAux_count_pos {E A : Type} (fn : Nat → Except E A) :
    ∀ fuel a d, 1 ≤ fuel → 1 ≤ (retryAux fn fuel a d).2.1 := by
  intro fuel
  cases fuel with
  | zero => intro a d h; exact absurd h (by omega)
  | succ f =>
    intro a d _
    cases hfa : fn a with
    | ok v => simp [retryAux_succ_ok hfa]
    | error e =>
      cases f with
      | zero => simp [retryAux_one_err hfa]
      | succ f' =>
        rw [retryAux_succ2_err hfa]
        show 1 ≤ (retryAux fn (f' + 1) (a + 1) (d * 2)).2.1 + 1
        omega

theorem retryAux_waits {E A : Type} (fn : Nat → Except E A) :
    ∀ fuel a d, 1 ≤ fuel →
      (retryAux fn fuel a d).2.2 =
        (List.range ((retryAux fn fuel a d).2.1 - 1)).map
          (fun k => d * 2 ^ k) := by
  intro fuel
  induction fuel with
  | zero => intro a d h; exact absurd h (by omega)
  | succ f ih =>
    intro a d _
    cases hfa : fn a with
    | ok v => simp [retryAux_succ_ok hfa]
    | error e =>
      cases f with
      | zero => simp [retryAux_one_err hfa]
      | succ f' =>
        rw [retryAux_succ2_err hfa]
        have hc := retryAux_count_pos fn (f' + 1) (a + 1) (d * 2) (by omega)
        have hw := ih (a + 1) (d * 2) (by omega)
        simp only
        rw [hw]
        obtain ⟨c, hc'⟩ : ∃ c, (retryAux fn (f' + 1) (a + 1) (d * 2)).2.1 =
            c + 1 := ⟨_, (Nat.succ_pred_eq_of_pos hc).symm⟩
        rw [hc']
        simp only [Nat.add_sub_cancel, List.range_succ_eq_map, List.map_cons,
          List.map_map]
        refine congrArg₂ _ (by ring) ?_
        apply List.map_congr_left
        intro k _
        simp only [Function.comp]
        ring_nf
        rw [pow_succ]
        ring

theorem retryAux_allfail {E A : Type} (fn : Nat → Except E A) (e : Nat → E) :
    ∀ fuel a d, 1 ≤ fuel →
      (∀ k, a ≤ k → k < a + fuel → fn k = .error (e k)) →
      (retryAux fn fuel a d).1 = .error (some (e (a + fuel - 1))) ∧
        (retryAux fn fuel a d).2.1 = fuel := by
  intro fuel
  induction fuel with
  | zero => intro a d h; exact absurd h (by omega)
  | succ f ih =>
    intro a d _ hfail
    have hfa : fn a = .error (e a) := hfail a le_rfl (by omega)
    cases f with
    | zero => simp [retryAux_one_err hfa]
    | succ f' =>
      rw [retryAux_succ2_err hfa]
      have := ih (a + 1) (d * 2) (by omega)
        (fun k hk1 hk2 => hfail k (by omega) (by omega))
      obtain ⟨h1, h2⟩ := this
      refine ⟨?_, ?_⟩
      · show (retryAux fn (f' + 1) (a + 1) (d * 2)).1 =
          Except.error (some (e (a + (f' + 2) - 1)))
        rw [h1]
        congr 3
        omega
      · show (retryAux fn (f' + 1) (a + 1) (d * 2)).2.1 + 1 = f' + 2
        omega

theorem retryAux_success {E A : Type} (fn : Nat → Except E A) (m : Nat)
    (v : A) (hm : fn m = .ok v) :
    ∀ fuel a d, a ≤ m → m < a + fuel →
      (∀ k, a ≤ k → k < m → ∃ er, fn k = .error er) →
      (retryAux fn fuel a d).1 = .ok v ∧
        (retryAux fn fuel a d).2.1 = m - a + 1 := by
  intro fuel
  induction fuel with
  | zero => intro a d h1 h2; omega
  | succ f ih =>
    intro a d ham hlt hprev
    rcases Nat.eq_or_lt_of_le ham with heq | hlt'
    · subst heq
      simp [retryAux_succ_ok hm]
    · obtain ⟨er, hfa⟩ := hprev a le_rfl hlt'
      cases f with
      | zero => omega
      | succ f' =>
        rw [retryAux_succ2_err hfa]
        have := ih (a + 1) (d * 2) (by omega) (by omega)
          (fun k hk1 hk2 => hprev k (by omega) hk2)
        obtain ⟨h1, h2⟩ := this
        refine ⟨h1, ?_⟩
        show (retryAux fn (f' + 1) (a + 1) (d * 2)).2.1 + 1 = m - a + 1
        omega

/-- C6: the backoff executor invokes the wrapped operation at most
`maxRetries` times; the delays slept are exactly `initialDelay * 2 ^ (k-1)`
after the failure of attempt `k` (list position `k - 1`); if every attempt
`1..n` fails, the last failure is propagated after exactly `n` invocations;
if attempts `1..m-1` fail and attempt `m ≤ n` succeeds, the success value is
returned after exactly `m` invocations — in particular `m = 3`, `n = 3`
gives three invocations and the success value; and a failure crosses the
executor boundary only when every one of the `n` attempts failed. -/
theorem retryWithBackoff_spec {E A : Type} (fn : Nat → Except E A)
    (e : Nat → E) (n d : Nat) (hn : 1 ≤ n) :
    (retryWithBackoff fn n d).2.1 ≤ n ∧
    (retryWithBackoff fn n d).2.2 =
      (List.range ((retryWithBackoff fn n d).2.1 - 1)).map
        (fun k => d * 2 ^ k) ∧
    ((∀ k, 1 ≤ k → k ≤ n → fn k = .error (e k)) →
      (retryWithBackoff fn n d).1 = .error (some (e n)) ∧
        (retryWithBackoff fn n d).2.1 = n) ∧
    (∀ m v, 1 ≤ m → m ≤ n → fn m = .ok v →
      (∀ k, 1 ≤ k → k < m → ∃ er, fn k = .error er) →
      (retryWithBackoff fn n d).1 = .ok v ∧
        (retryWithBackoff fn n d).2.1 = m) ∧
    (∀ x, (retryWithBackoff fn n d).1 = .error x →
      ∀ k, 1 ≤ k → k ≤ n → ∃ er, fn k = .error er) := by
  refine ⟨retryAux_count_le fn n 1 d, retryAux_waits fn n 1 d hn, ?_, ?_, ?_⟩
  · intro hfail
    have h := retryAux_allfail fn e n 1 d hn
      (fun k hk1 hk2 => hfail k hk1 (by omega))
    have hidx : 1 + n - 1 = n := by omega
    rw [hidx] at h
    exact h
  · intro m v hm1 hmn hok hprev
    have := retryAux_success fn m v hok n 1 d hm1 (by omega)
      (fun k hk1 hk2 => hprev k hk1 hk2)
    refine ⟨this.1, ?_⟩
    have h2 := this.2
    show (retryAux fn n 1 d).2.1 = m
    omega
  · intro x hx k hk1 hk2
    by_contra hne
    have hex : ∃ m, 1 ≤ m ∧ m ≤ n ∧ (fn m).isOk = true := by
      cases hfk : fn k with
      | ok v => exact ⟨k, hk1, hk2, by simp [hfk, Except.isOk, Except.toBool]⟩
      | error er => exact absurd ⟨er, hfk⟩ hne
    obtain ⟨hm1, hm2, hm3⟩ := Nat.find_spec hex
    obtain ⟨v, hv⟩ : ∃ v, fn (Nat.find hex) = .ok v := by
      cases hf : fn (Nat.find hex) with
      | ok v => exact ⟨v, rfl⟩
      | error er => rw [hf] at hm3; exact absurd hm3 (by simp [Except.isOk, Except.toBool])
    have hprev : ∀ j, 1 ≤ j → j < Nat.find hex → ∃ er, fn j = .error er := by
      intro j hj1 hj2
      have hmin := Nat.find_min hex hj2
      cases hf : fn j with
      | ok w => exact absurd ⟨hj1, by omega, by simp [hf, Except.isOk, Except.toBool]⟩ hmin
      | error er => exact ⟨er, rfl⟩
    have hres := (retryAux_success fn (Nat.find hex) v hv n 1 d hm1
      (by omega) hprev).1
    have hx2 : (retryAux fn n 1 d).1 = .error x := hx
    rw [hres] at hx2
    exact absurd hx2 (by simp)

/-- Witness for C6: with `maxRetries = 3` the scenario operation is invoked
exactly three times, the success value is returned, and the two sleeps are
1000 ms and 2000 ms. -/
theorem retryWithBackoff_spec_witness :
    (1 : Nat) ≤ 3 ∧
      (retryWithBackoff retryScenario 3 1000).1 = .ok 42 ∧
      (retryWithBackoff retryScenario 3 1000).2.1 = 3 ∧
      (retryWithBackoff retryScenario 3 1000).2.2 = [1000, 2000] := by
  have h := (retryWithBackoff_spec retryScenario id 3 1000
    (by omega)).2.2.2.1 3 42 (by omega) (by omega) rfl
    (fun k h1 h2 => ⟨k, by simp [retryScenario, h2]⟩)
  exact ⟨by omega, h.1, h.2, by decide⟩

/-! ## Events fetch helper failure mode (claim C9) -/

/-- C9: there is an execution of `fetchWithBackoff` — every attempt
resolving with an HTTP response whose status is not 200 (here 204), nothing
thrown — in which the loop exhausts with `lastError` still undefined, and
the final `new Error(\`... ${lastError.message}\`)` construction raises a
TypeError instead of the intended wrapped `Failed to fetch events` error. -/
theorem fetchWithBackoff_typeError :
    fetchWithBackoff (fun _ => .ok ⟨204⟩) 3 = .typeError ∧ (204 : Nat) ≠ 200 :=
  ⟨rfl, by omega⟩

/-! ## String-order lemmas for the team sort (claim C4) -/

theorem charsLt_asymm : ∀ {x y : List Char},
    charsLt x y = true → charsLt y x = false := by
  intro x
  induction x with
  | nil => intro y h; cases y <;> simp_all [charsLt]
  | cons a as ih =>
    intro y h
    cases y with
    | nil => simp [charsLt] at h
    | cons b bs =>
      simp only [charsLt] at h ⊢
      split at h
      · rename_i h1
        rw [if_neg (asymm h1), if_pos h1]
      · split at h
        · exact absurd h (by simp)
        · rename_i h1 h2
          rw [if_neg h2, if_neg h1]
          exact ih h

theorem charsLt_irrefl (x : List Char) : charsLt x x = false := by
  cases hlt : charsLt x x
  · rfl
  · have h2 := charsLt_asymm hlt
    rw [hlt] at h2
    exact h2

theorem charsLt_trans : ∀ {x y z : List Char}, charsLt x y = true →
    charsLt y z = true → charsLt x z = true := by
  intro x
  induction x with
  | nil => intro y z h1 h2; cases y <;> cases z <;> simp_all [charsLt]
  | cons a as ih =>
    intro y z h1 h2
    cases y with
    | nil => simp [charsLt] at h1
    | cons b bs =>
      cases z with
      | nil => simp [charsLt] at h2
      | cons c cs =>
        simp only [charsLt] at h1 h2 ⊢
        split at h1 <;> split at h2 <;> rename_i hab hbc
        · rw [if_pos (lt_trans hab hbc)]
        · split at h2
          · exact absurd h2 (by simp)
          · rename_i hcb
            have hbc2 : b = c := le_antisymm (not_lt.mp hcb) (not_lt.mp hbc)
            subst hbc2
            rw [if_pos hab]
        · split at h1
          · exact absurd h1 (by simp)
          · rename_i hba
            have hab2 : a = b := le_antisymm (not_lt.mp hba) (not_lt.mp hab)
            subst hab2
            rw [if_pos hbc]
        · split at h1
          · exact absurd h1 (by simp)
          · split at h2
            · exact absurd h2 (by simp)
            · rename_i hba hcb
              have hab2 : a = b := le_antisymm (not_lt.mp hba) (not_lt.mp hab)
              have hbc2 : b = c := le_antisymm (not_lt.mp hcb) (not_lt.mp hbc)
              subst hab2; subst hbc2
              rw [if_neg hab, if_neg hba]
              exact ih h1 h2

theorem charsLt_connex : ∀ {x y : List Char}, charsLt x y = false →
    charsLt y x = false → x = y := by
  intro x
  induction x with
  | nil => intro y h1 _; cases y <;> simp_all [charsLt]
  | cons a as ih =>
    intro y h1 h2
    cases y with
    | nil => simp [charsLt] at h2
    | cons b bs =>
      simp only [charsLt] at h1 h2
      split at h1
      · exact absurd h1 (by simp)
      · split at h1
        · split at h2
          · exact absurd h2 (by simp)
          · rename_i hab hba hba2
            exact absurd hba (by simp [hba2])
        · rename_i hab hba
          have hab2 : a = b := le_antisymm (not_lt.mp hba) (not_lt.mp hab)
          subst hab2
          rw [if_neg hab, if_neg hab] at h2
          exact congrArg (a :: ·) (ih h1 h2)

/-- Characterization of a non-positive `localeCompare` value: the lowered
characters compare strictly below, or they tie and the raw characters weakly
compare below. -/
theorem localeCompare_nonpos_iff (a b : String) :
    localeCompare a b ≤ 0 ↔
      (charsLt (jsToLower a).data (jsToLower b).data = true ∨
        ((jsToLower a).data = (jsToLower b).data ∧
          (charsLt a.data b.data = true ∨ a.data = b.data))) := by
  unfold localeCompare
  split
  · rename_i h1
    simp [h1]
  · rename_i h1
    split
    · rename_i h2
      constructor
      · intro h; exact absurd h (by omega)
      · intro h
        rcases h with h | ⟨heq, _⟩
        · rw [h] at h1; exact absurd h1 (by simp)
        · rw [heq, charsLt_irrefl] at h2; exact absurd h2 (by simp)
    · rename_i h2
      have heq := charsLt_connex (by simpa using h1) (by simpa using h2)
      split
      · rename_i h3
        simp [heq, h3]
      · split
        · rename_i h3 h4
          constructor
          · intro h; exact absurd h (by omega)
          · intro h
            rcases h with h | ⟨_, h | h⟩
            · rw [h] at h1; exact absurd h1 (by simp)
            · rw [h] at h3; exact absurd h3 (by simp)
            · rw [h, charsLt_irrefl] at h4; exact absurd h4 (by simp)
        · rename_i h3 h4
          have heq2 := charsLt_connex (by simpa using h3) (by simpa using h4)
          simp [heq, heq2]

theorem localeCompare_le_trans {a b c : String}
    (h1 : localeCompare a b ≤ 0) (h2 : localeCompare b c ≤ 0) :
    localeCompare a c ≤ 0 := by
  rw [localeCompare_nonpos_iff] at h1 h2 ⊢
  rcases h1 with h1 | ⟨he1, hi1⟩
  · rcases h2 with h2 | ⟨he2, _⟩
    · exact Or.inl (charsLt_trans h1 h2)
    · exact Or.inl (he2 ▸ h1)
  · rcases h2 with h2 | ⟨he2, hi2⟩
    · exact Or.inl (he1 ▸ h2)
    · refine Or.inr ⟨he1.trans he2, ?_⟩
      rcases hi1 with hi1 | hi1
      · rcases hi2 with hi2 | hi2
        · exact Or.inl (charsLt_trans hi1 hi2)
        · exact Or.inl (hi2 ▸ hi1)
      · rcases hi2 with hi2 | hi2
        · exact Or.inl (hi1 ▸ hi2)
        · exact Or.inr (hi1.trans hi2)

theorem localeCompare_le_total (a b : String) :
    localeCompare a b ≤ 0 ∨ localeCompare b a ≤ 0 := by
  rw [localeCompare_nonpos_iff, localeCompare_nonpos_iff]
  cases h1 : charsLt (jsToLower a).data (jsToLower b).data
  · cases h2 : charsLt (jsToLower b).data (jsToLower a).data
    · have heq := charsLt_connex h1 h2
      cases h3 : charsLt a.data b.data
      · cases h4 : charsLt b.data a.data
        · exact Or.inl (Or.inr ⟨heq, Or.inr (charsLt_connex h3 h4)⟩)
        · exact Or.inr (Or.inr ⟨heq.symm, Or.inl rfl⟩)
      · exact Or.inl (Or.inr ⟨heq, Or.inl rfl⟩)
    · exact Or.inr (Or.inl rfl)
  · exact Or.inl (Or.inl rfl)

theorem mem_insertSorted {A : Type} (le : A → A → Bool) (x a : A) :
    ∀ l, a ∈ insertSorted le x l ↔ a = x ∨ a ∈ l := by
  intro l
  induction l with
  | nil => simp [insertSorted]
  | cons y ys ih =>
    simp only [insertSorted]
    split
    · simp
    · simp only [List.mem_cons, ih]
      tauto

theorem mem_sortBy {A : Type} (le : A → A → Bool) (a : A) :
    ∀ l, a ∈ sortBy le l ↔ a ∈ l := by
  intro l
  induction l with
  | nil => simp [sortBy]
  | cons x xs ih =>
    simp only [sortBy, mem_insertSorted, ih, List.mem_cons]

theorem pairwise_insertSorted {A : Type} (le : A → A → Bool)
    (htrans : ∀ a b c, le a b = true → le b c = true → le a c = true)
    (htotal : ∀ a b, (le a b || le b a) = true) (x : A) :
    ∀ l, List.Pairwise (fun a b => le a b = true) l →
      List.Pairwise (fun a b => le a b = true) (insertSorted le x l) := by
  intro l
  induction l with
  | nil => intro _; simp [insertSorted]
  | cons y ys ih =>
    intro h
    rcases List.pairwise_cons.mp h with ⟨hy, hys⟩
    simp only [insertSorted]
    split
    · rename_i hxy
      refine List.pairwise_cons.mpr ⟨?_, h⟩
      intro z hz
      rcases List.mem_cons.mp hz with rfl | hz
      · exact hxy
      · exact htrans x y z hxy (hy z hz)
    · rename_i hxy
      have hyx : le y x = true := by
        have htot := htotal x y
        rw [Bool.eq_false_iff.mpr hxy, Bool.false_or] at htot
        exact htot
      refine List.pairwise_cons.mpr ⟨?_, ih hys⟩
      intro z hz
      rcases (mem_insertSorted le x z ys).mp hz with rfl | hz
      · exact hyx
      · exact hy z hz

theorem pairwise_sortBy {A : Type} (le : A → A → Bool)
    (htrans : ∀ a b c, le a b = true → le b c = true → le a c = true)
    (htotal : ∀ a b, (le a b || le b a) = true) :
    ∀ l, List.Pairwise (fun a b => le a b = true) (sortBy le l) := by
  intro l
  induction l with
  | nil => simp [sortBy]
  | cons x xs ih =>
    exact pairwise_insertSorted le htrans htotal x (sortBy le xs) ih

theorem memberCmp_le_trans {a b c : Member} (h1 : memberCmp a b ≤ 0)
    (h2 : memberCmp b c ≤ 0) : memberCmp a c ≤ 0 := by
  unfold memberCmp at h1 h2 ⊢
  split_ifs at h1 h2 ⊢ <;>
    first
      | exact localeCompare_le_trans h1 h2
      | omega

theorem memberCmp_le_total (a b : Member) :
    memberCmp a b ≤ 0 ∨ memberCmp b a ≤ 0 := by
  unfold memberCmp
  split_ifs <;>
    first
      | exact localeCompare_le_total (jsName a) (jsName b)
      | omega

theorem memberLE_imp_yearNameOrder {a b : Member} (h : memberLE a b = true) :
    yearNameOrder a b := by
  simp only [memberLE, decide_eq_true_eq] at h
  unfold memberCmp at h
  split at h
  · rename_i hne
    exact Or.inl (by omega)
  · rename_i hne
    refine Or.inr ⟨by omega, ?_⟩
    rw [localeCompare_nonpos_iff] at h
    rcases h with h | ⟨heq, _⟩
    · exact charsLt_asymm h
    · rw [← heq]
      exact charsLt_irrefl _

theorem memberLE_trans (a b c : Member) (h1 : memberLE a b = true)
    (h2 : memberLE b c = true) : memberLE a c = true := by
  simp only [memberLE, decide_eq_true_eq] at h1 h2 ⊢
  exact memberCmp_le_trans h1 h2

theorem memberLE_total (a b : Member) :
    (memberLE a b || memberLE b a) = true := by
  simp only [memberLE, Bool.or_eq_true, decide_eq_true_eq]
  exact memberCmp_le_total a b

/-- C4: for every upstream team response, the member sequence
`fetchTeamMembers` returns (and `getMembers` serves on the fetch path)
contains no member whose name is null, and is sorted by year descending
with ties broken by case-insensitive name ascending — for every input
record order. -/
theorem fetchTeamMembers_filtered_sorted
    (upstream : Except AxiosErr TeamResp) :
    (∀ m ∈ fetchTeamMembers upstream, m.name ≠ none) ∧
      List.Pairwise yearNameOrder (fetchTeamMembers upstream) := by
  cases upstream with
  | error e => simp [fetchTeamMembers]
  | ok resp =>
    simp only [fetchTeamMembers]
    split
    · constructor
      · intro m hm
        rw [mem_sortBy, List.mem_filter] at hm
        exact Option.isSome_iff_ne_none.mp hm.2
      · have hs := pairwise_sortBy memberLE memberLE_trans memberLE_total
          (resp.data.filter (fun m => m.name.isSome))
        exact hs.imp (fun h => memberLE_imp_yearNameOrder h)
    · simp

/-- Witness for C4: on a concrete response holding a null-name record and
two named records in scrambled order, the theorem applies to a member of
the produced output. -/
theorem fetchTeamMembers_filtered_sorted_witness :
    Member.name ⟨"2", some "Alice", "PRESIDENT", 2025⟩ ≠ none :=
  (fetchTeamMembers_filtered_sorted (Except.ok ⟨200, true,
    [⟨"1", none, "X", 2024⟩, ⟨"3", some "bob", "Y", 2025⟩,
     ⟨"2", some "Alice", "PRESIDENT", 2025⟩]⟩)).1
    ⟨"2", some "Alice", "PRESIDENT", 2025⟩ (by decide)

/-! ## Events partition (claim C5) -/

theorem eventDateDescLE_trans (a b c : EventRecord)
    (h1 : eventDateDescLE a b = true) (h2 : eventDateDescLE b c = true) :
    eventDateDescLE a c = true := by
  simp only [eventDateDescLE, decide_eq_true_eq] at h1 h2 ⊢
  omega

theorem eventDateDescLE_total (a b : EventRecord) :
    (eventDateDescLE a b || eventDateDescLE b a) = true := by
  simp only [eventDateDescLE, Bool.or_eq_true, decide_eq_true_eq]
  omega

theorem info_eq_some_getInfoD {e : EventRecord} (h : e.info.isSome = true) :
    e.info = some (getInfoD e) := by
  cases hinfo : e.info with
  | none => rw [hinfo] at h; exact absurd h (by simp)
  | some j => simp [getInfoD, hinfo]

/-- C5: for every fetched events array, `processEventsData` classifies the
records with an `info` object solely by `info.isEventPast`: the records
with the flag false form `upcomingEvents`, as full records in upstream
order; `pastEvents` holds at most 5 entries, sorted by event date
descending, each the bare `info` projection of a record whose flag is true
— so every output record sits in exactly one of the two subsets. -/
theorem processEventsData_partition (raw : List EventRecord) :
    (processEventsData (some raw)).upcomingEvents.Sublist raw ∧
    (∀ e, e ∈ (processEventsData (some raw)).upcomingEvents ↔
      e ∈ raw ∧ e.info.isSome = true ∧ (getInfoD e).isEventPast = false) ∧
    (processEventsData (some raw)).pastEvents.length ≤ 5 ∧
    List.Pairwise (fun i j => j.eventDate ≤ i.eventDate)
      (processEventsData (some raw)).pastEvents ∧
    (∀ i ∈ (processEventsData (some raw)).pastEvents,
      i.isEventPast = true ∧ ∃ e ∈ raw, e.info = some i) := by
  refine ⟨?_, ?_, ?_, ?_, ?_⟩
  · exact List.filter_sublist raw
  · intro e
    show e ∈ raw.filter
        (fun e => e.info.isSome && !(getInfoD e).isEventPast) ↔ _
    rw [List.mem_filter]
    simp [Bool.and_eq_true]
  · show (((sortBy eventDateDescLE (raw.filter
        (fun e => e.info.isSome && (getInfoD e).isEventPast))).take 5).map
          getInfoD).length ≤ 5
    rw [List.length_map]
    exact List.length_take_le 5 _
  · show List.Pairwise (fun i j => j.eventDate ≤ i.eventDate)
      (((sortBy eventDateDescLE (raw.filter
        (fun e => e.info.isSome && (getInfoD e).isEventPast))).take 5).map
          getInfoD)
    have hs := pairwise_sortBy eventDateDescLE eventDateDescLE_trans
      eventDateDescLE_total
      (raw.filter (fun e => e.info.isSome && (getInfoD e).isEventPast))
    have htake := hs.sublist (List.take_sublist 5 _)
    rw [List.pairwise_map]
    refine htake.imp ?_
    intro a b h
    simpa [eventDateDescLE, decide_eq_true_eq] using h
  · intro i hi
    simp only [processEventsData, List.mem_map] at hi
    obtain ⟨e, he, rfl⟩ := hi
    have he2 := (List.take_sublist 5 _).subset he
    rw [mem_sortBy, List.mem_filter] at he2
    obtain ⟨hraw, hp⟩ := he2
    rw [Bool.and_eq_true] at hp
    exact ⟨hp.2, e, hraw, info_eq_some_getInfoD hp.1⟩

/-- Witness for C5: on a concrete two-record array the theorem yields, for
the single past entry, that its flag is set, and that it is the `info`
projection of a fetched record. -/
theorem processEventsData_partition_witness :
    EventInfo.isEventPast ⟨"Old", "", 100, true⟩ = true ∧
      ∃ e ∈ [(⟨"a", some ⟨"Old", "", 100, true⟩, []⟩ : EventRecord),
             ⟨"b", some ⟨"New", "", 200, false⟩, []⟩],
        e.info = some ⟨"Old", "", 100, true⟩ :=
  (processEventsData_partition
    [⟨"a", some ⟨"Old", "", 100, true⟩, []⟩,
     ⟨"b", some ⟨"New", "", 200, false⟩, []⟩]).2.2.2.2
    ⟨"Old", "", 100, true⟩ (by decide)

/-! ## Cache freshness (claim C1) -/

/-- C1 (amended): a second read inside the TTL window is served from cache
with no upstream call — unconditionally for the team cache (whose entry was
stored at a non-zero time), but for the events cache only when the cached
`upcomingEvents` subset is non-empty, because `isCacheFresh` additionally
requires `cachedEvents.upcomingEvents.length > 0`. -/
theorem cache_fresh_hit (sT : TeamState) (sE : EventsState)
    (now1 t0 ttl : Int) (v : List Member)
    (upT : Except AxiosErr TeamResp) (upE : Except Unit EventsResp)
    (h1 : sT.cachedData = some v) (h2 : sT.lastFetch = some t0)
    (h3 : t0 ≠ 0) (h4 : now1 - t0 < sT.cacheTimeout)
    (h5 : sE.cachedEvents.upcomingEvents ≠ [])
    (h6 : now1 - sE.lastEventsFetchTime < ttl) :
    getMembers sT now1 upT = (.hit v, sT, 0) ∧
      fetchAndCacheEvents sE now1 ttl upE = (sE.cachedEvents, sE, 0) := by
  constructor
  · have hfresh : teamCacheFresh sT now1 = true := by
      simp [teamCacheFresh, h1, h2, h3, h4]
    simp [getMembers, hfresh, h1]
  · have hfresh : isCacheFresh sE now1 ttl = true := by
      simp [isCacheFresh, h6, List.length_pos, h5]
    simp [fetchAndCacheEvents, hfresh]

/-- Witness for C1 (amended): concrete fresh team and events caches are both
served without an upstream call at t = 2000 ms. -/
theorem cache_fresh_hit_witness :
    getMembers cachedTeamState 2000 (.error ⟨"down"⟩) =
        (.hit [janeMember], cachedTeamState, 0) ∧
      fetchAndCacheEvents freshEventsState 2000 120000 (.error ()) =
        (freshEventsState.cachedEvents, freshEventsState, 0) :=
  cache_fresh_hit cachedTeamState freshEventsState 2000 1000 120000
    [janeMember] (.error ⟨"down"⟩) (.error ()) rfl rfl (by decide)
    (by decide) (by decide) (by decide)

/-- Counterexample for C1 as stated: events-cache freshness is **not** a
function of entry age alone. A first read at t = 1000 ms stores a cache
entry (all fetched events are past, so `upcomingEvents` is empty); a second
read at t = 2000 ms — 1000 ms old, far below the 120000 ms TTL — finds
`isCacheFresh` false and issues one more upstream call instead of none. -/
theorem events_freshness_depends_on_contents :
    eventsStateAfterFirstRead.lastEventsFetchTime = 1000 ∧
      eventsStateAfterFirstRead.cachedEvents.pastEvents ≠ [] ∧
      (2000 : Int) - 1000 < 120000 ∧
      (fetchAndCacheEvents eventsStateAfterFirstRead 2000 120000
        eventsResponseAllPast).2.2 = 1 := by
  refine ⟨by decide, by decide, by decide, by decide⟩

/-! ## Team-cache degradation on upstream failure (claim C2) -/

/-- C2 (amended): `teamAPI.fetchTeamMembers` absorbs every upstream failure
and returns `[]` without raising, so a stale `getMembers()` call whose
upstream fetch fails takes the success path: it returns the empty sequence
and **replaces** the previously cached value with `some []` (stamping
`lastFetch := now`) — the prior cached members are not served and not
preserved; no exception crosses the cache boundary on any path. -/
theorem getMembers_upstream_failure (s : TeamState) (now : Int) (e : AxiosErr)
    (hfresh : teamCacheFresh s now = false) (hflight : s.isFetching = false) :
    fetchTeamMembers (.error e) = [] ∧
      getMembers s now (.error e) =
        (.fetched [], ⟨some [], some now, s.cacheTimeout, false⟩, 1) := by
  refine ⟨rfl, ?_⟩
  simp [getMembers, hfresh, hflight, fetchTeamMembers]

/-- Witness for C2 (amended): the concrete stale state with a cached member
list sees the failing fetch return `[]` and overwrite the cache. -/
theorem getMembers_upstream_failure_witness :
    fetchTeamMembers (.error ⟨"network down"⟩) = [] ∧
      getMembers cachedTeamState 200000 (.error ⟨"network down"⟩) =
        (.fetched [], ⟨some [], some 200000, 120000, false⟩, 1) :=
  getMembers_upstream_failure cachedTeamState 200000 ⟨"network down"⟩
    (by decide) rfl

/-- Counterexample for C2 as stated: with a prior cache entry
`[janeMember]` and a failing upstream fetch, the stale read returns `[]` —
not the previously cached member sequence — and the failed fetch replaces
the prior cached value with `some []`. -/
theorem team_failure_discards_stale_cache :
    cachedTeamState.cachedData = some [janeMember] ∧
      (getMembers cachedTeamState 200000 (.error ⟨"network down"⟩)).1 =
        .fetched [] ∧
      (getMembers cachedTeamState 200000
          (.error ⟨"network down"⟩)).2.1.cachedData = some [] ∧
      ([] : List Member) ≠ [janeMember] := by
  refine ⟨rfl, by decide, by decide, by decide⟩

/-! ## Generation client failure mapping (claim C7) -/

theorem mapGenError_mem (e : GenError) :
    mapGenError e ∈
      [API_CONFIG_ERROR, EMPTY_RESPONSE, TIMEOUT_MESSAGE, NETWORK_ERROR] := by
  unfold mapGenError
  split_ifs <;> simp

/-- C7 (amended): for every non-blank query, `generateAIResponse` never
raises: it returns (`.ok`) either the validated upstream text or one of the
four fixed user-facing messages (configuration error, empty response,
timeout, network error) — the failure mapping is total. The input-validation
`throw` is the single raising path, and it fires exactly on empty or
whitespace-only queries (see the counterexample). -/
theorem generateAIResponse_total_mapping (q : String)
    (u : Except GenError GenResponse) (hq : isBlankQuery q = false) :
    ∃ s, generateAIResponse q u = .ok s ∧
      (s ∈ [API_CONFIG_ERROR, EMPTY_RESPONSE, TIMEOUT_MESSAGE,
          NETWORK_ERROR] ∨
        ∃ r, u = .ok r ∧ validateAndExtractResponse r = .ok s) := by
  unfold generateAIResponse
  rw [hq]
  simp only [Bool.false_eq_true, if_false]
  cases u with
  | error e => exact ⟨mapGenError e, rfl, Or.inl (mapGenError_mem e)⟩
  | ok r =>
    cases hv : validateAndExtractResponse r with
    | ok t => exact ⟨t, by simp [hv], Or.inr ⟨r, rfl, hv⟩⟩
    | error e => exact ⟨mapGenError e, by simp [hv],
        Or.inl (mapGenError_mem e)⟩

/-- Witness for C7 (amended): a concrete valid query against a concrete
successful upstream response. -/
theorem generateAIResponse_total_mapping_witness :
    ∃ s, generateAIResponse "Who is the president?"
        (.ok ⟨200, some "Jane Doe is the President."⟩) = .ok s ∧
      (s ∈ [API_CONFIG_ERROR, EMPTY_RESPONSE, TIMEOUT_MESSAGE,
          NETWORK_ERROR] ∨
        ∃ r, (Except.ok ⟨200, some "Jane Doe is the President."⟩ :
            Except GenError GenResponse) = .ok r ∧
          validateAndExtractResponse r = .ok s) :=
  generateAIResponse_total_mapping "Who is the president?"
    (.ok ⟨200, some "Jane Doe is the President."⟩) (by decide)

/-- Counterexample for C7 as stated: an empty (or whitespace-only) query is
**not** rejected by returning a fixed error string — the validation `throw`
sits outside the try/catch, so `generateAIResponse` raises the validation
error out of the function. -/
theorem generateAIResponse_empty_query_raises :
    generateAIResponse "" (.error ⟨none, "boom", none⟩) =
        .error "Query must be a non-empty string" ∧
      generateAIResponse "   " (.error ⟨none, "boom", none⟩) =
        .error "Query must be a non-empty string" := by
  refine ⟨rfl, rfl⟩

/-! ## Orchestrator input validation (claim C8) -/

/-- C8: for every empty, whitespace-only or non-string message,
`sendMessage` returns the `{success: false}` envelope carrying the fixed
invalid-input message, and issues zero network calls: no team fetch, no
events fetch, no generation call. -/
theorem sendMessage_invalid_input (m : JSInput)
    (gen : Except GenError GenResponse) (h : jsInvalidMessage m = true) :
    sendMessage m gen = ⟨false, INVALID_INPUT, 0, 0, 0⟩ := by
  cases m with
  | nonString => rfl
  | str s =>
    simp only [jsInvalidMessage] at h
    simp [sendMessage, h]

/-- Witness for C8: the whitespace-only message and a non-string message
both return the invalid-input envelope with zero calls. -/
theorem sendMessage_invalid_input_witness :
    sendMessage (.str "   ") (.error ⟨none, "boom", none⟩) =
      ⟨false, INVALID_INPUT, 0, 0, 0⟩ :=
  sendMessage_invalid_input (.str "   ") (.error ⟨none, "boom", none⟩)
    (by decide)

/-! ## Search and lookup never return past events (claim C10) -/

theorem mem_upcomingEvents {raw : List EventRecord} {e : EventRecord}
    (h : e ∈ (processEventsData (some raw)).upcomingEvents) :
    e ∈ raw ∧ e.info.isSome = true ∧ (getInfoD e).isEventPast = false := by
  rw [show (processEventsData (some raw)).upcomingEvents =
    raw.filter (fun e => e.info.isSome && !(getInfoD e).isEventPast)
    from rfl, List.mem_filter] at h
  obtain ⟨hraw, hp⟩ := h
  rw [Bool.and_eq_true, Bool.not_eq_true'] at hp
  exact ⟨hraw, hp.1, hp.2⟩

theorem jsIncludes_empty_hay {needle : String} (h : needle.data ≠ []) :
    jsIncludes "" needle = false := by
  cases hn : needle.data with
  | nil => exact absurd hn h
  | cons c cs => simp [jsIncludes, hn, List.isPrefixOf]

theorem jsToLower_ne_nil {q : String} (h : isBlankQuery q = false) :
    (jsToLower q).data ≠ [] := by
  intro hnil
  simp only [jsToLower, List.map_eq_nil_iff] at hnil
  unfold isBlankQuery at h
  rw [hnil] at h
  simp at h

/-- C10: on any cache value produced by `processEventsData`, `searchEvents`
and `getEventById` can only return upcoming records: past entries are bare
`info` projections, on which `event.info` is undefined (so both search
fields read as the empty string and cannot contain a non-empty query) and
`event.id` is undefined (so the strict equality with a truthy id fails). -/
theorem search_and_lookup_never_past (raw : List EventRecord)
    (q eid : String) :
    (∀ e ∈ searchEvents q (processEventsData (some raw)),
      ∃ r, r ∈ (processEventsData (some raw)).upcomingEvents ∧
        e = .full r ∧ (getInfoD r).isEventPast = false) ∧
    (∀ e, getEventById eid (processEventsData (some raw)) = some e →
      ∃ r, r ∈ (processEventsData (some raw)).upcomingEvents ∧
        e = .full r ∧ (getInfoD r).isEventPast = false) := by
  constructor
  · intro e he
    unfold searchEvents at he
    split at he
    · exact absurd he (by simp)
    · rename_i hq
      rw [List.mem_filter] at he
      obtain ⟨hmem, hmatch⟩ := he
      unfold allEventsOf at hmem
      rw [List.mem_append] at hmem
      rcases hmem with hup | hpast
      · rw [List.mem_map] at hup
        obtain ⟨r, hr, rfl⟩ := hup
        exact ⟨r, hr, rfl, (mem_upcomingEvents hr).2.2⟩
      · exfalso
        rw [List.mem_map] at hpast
        obtain ⟨i, _, rfl⟩ := hpast
        have hnil : (jsToLower q).data ≠ [] :=
          jsToLower_ne_nil (Bool.not_eq_true _ ▸ hq)
        simp only [jsInfo, jsIncludes_empty_hay hnil, Bool.or_self] at hmatch
        exact absurd hmatch (by simp)
  · intro e he
    unfold getEventById at he
    split at he
    · exact absurd he (by simp)
    · have hpred := List.find?_some he
      have hmem := List.mem_of_find?_eq_some he
      unfold allEventsOf at hmem
      rw [List.mem_append] at hmem
      rcases hmem with hup | hpast
      · rw [List.mem_map] at hup
        obtain ⟨r, hr, rfl⟩ := hup
        exact ⟨r, hr, rfl, (mem_upcomingEvents hr).2.2⟩
      · exfalso
        rw [List.mem_map] at hpast
        obtain ⟨i, _, rfl⟩ := hpast
        simp only [jsId] at hpred
        exact absurd hpred (by simp)

/-- Witness for C10: on a concrete cache with one upcoming and one past
event, the record found by a search for "launch" is the upcoming one. -/
theorem search_and_lookup_never_past_witness :
    ∃ r, r ∈ (processEventsData
        (some [upcomingRecord, pastOnlyRecord])).upcomingEvents ∧
      CachedEvent.full upcomingRecord = .full r ∧
      (getInfoD r).isEventPast = false :=
  (search_and_lookup_never_past [upcomingRecord, pastOnlyRecord]

    "launch" "u1").1 (.full upcomingRecord) (by decide)

end FedChatbot
